import Mathlib

/-!
Verification of the SPI driver in `src/spi.rs` (py32f0xx-hal).

The development shallowly embeds the driver's pure computations (baud-rate
divisor selection, register-value derivation) as Lean functions, and its
polling transfer engine as executable state machines driven by two input
streams: `σ : Nat → SR`, the successive snapshots returned by reads of the
status register (one entry consumed per read of SR, in program order), and
`rx : Nat → Nat`, the successive values returned by reads of the data
register.  Loops that the source program runs without a bound are modelled
with explicit fuel: a result of `none` means the program has not returned
within the given number of steps.
-/

namespace Py32Spi

/-- SPI error taxonomy, from `enum Error` in src/spi.rs. -/
inductive Error where
  | Overrun
  | ModeFault
  | Crc
  | IncompleteTransfer
  deriving DecidableEq

/-- Result of one status poll, mirroring `nb::Result<(), Error>`:
`ok` is `Ok(())`, `wouldBlock` is `Err(nb::Error::WouldBlock)`, and
`err e` is `Err(nb::Error::Other(e))`. -/
inductive NbResult where
  | ok
  | wouldBlock
  | err (e : Error)
  deriving DecidableEq

/-- A snapshot of the status register SR, with the bit-fields the driver
reads: OVR, MODF, RXNE, TXE, BSY and the 2-bit FTLVL level. -/
structure SR where
  ovr : Bool
  modf : Bool
  rxne : Bool
  txe : Bool
  bsy : Bool
  ftlvl : Nat
  deriving DecidableEq

/-- Function `check_read` from src/spi.rs: OVR, then MODF, then RXNE, else WouldBlock. -/
def check_read (sr : SR) : NbResult :=
  if sr.ovr then NbResult.err Error.Overrun
  else if sr.modf then NbResult.err Error.ModeFault
  else if sr.rxne then NbResult.ok
  else NbResult.wouldBlock

/-- Function `check_send` from src/spi.rs: OVR, then MODF, then TXE && !BSY, else WouldBlock. -/
def check_send (sr : SR) : NbResult :=
  if sr.ovr then NbResult.err Error.Overrun
  else if sr.modf then NbResult.err Error.ModeFault
  else if sr.txe && !sr.bsy then NbResult.ok
  else NbResult.wouldBlock

/-- Function `send_buffer_size` from src/spi.rs: free send-capacity estimate from
the FTLVL FIFO-occupancy field. -/
def send_buffer_size (sr : SR) : Nat :=
  match sr.ftlvl with
  | 0 => 4
  | 1 => 3
  | 2 => 2
  | _ => 0

/-- The `match` on `clocks.pclk().0 / speed.into().0` inside `spi_init`
(src/spi.rs, lines 311-321), as a function of the already-computed quotient.
The source's `0 => unreachable!()` arm is modelled as `none`. -/
def brOfQuot (r : Nat) : Option Nat :=
  if r = 0 then none
  else if r ≤ 2 then some 0
  else if r ≤ 5 then some 1
  else if r ≤ 11 then some 2
  else if r ≤ 23 then some 3
  else if r ≤ 47 then some 4
  else if r ≤ 95 then some 5
  else if r ≤ 191 then some 6
  else some 7

/-- The baud-rate divisor selector computed by `spi_init`:
`match pclk / speed { 0 => unreachable, 1..=2 => 0b000, ... }`. -/
def spiBr (pclk speed : Nat) : Option Nat :=
  brOfQuot (pclk / speed)

/-- Clock polarity, as in `embedded_hal::spi::Polarity`. -/
inductive Polarity where
  | IdleLow
  | IdleHigh
  deriving DecidableEq

/-- Clock phase, as in `embedded_hal::spi::Phase`. -/
inductive Phase where
  | CaptureOnFirstTransition
  | CaptureOnSecondTransition
  deriving DecidableEq

/-- SPI mode, as in `embedded_hal::spi::Mode`. -/
structure Mode where
  polarity : Polarity
  phase : Phase

/-- The CR1 control-register value as a record of its bit-fields. -/
structure CR1 where
  cpha : Bool
  cpol : Bool
  mstr : Bool
  br : Nat
  lsbfirst : Bool
  ssm : Bool
  ssi : Bool
  rxonly : Bool
  bidimode : Bool
  spe : Bool

/-- The `spi_init` master-configuration sequence (src/spi.rs): computes the
baud-rate selector and writes CR1 (CPHA/CPOL from the mode, MSTR set,
LSBFIRST clear, SSM and SSI set, RXONLY and BIDIMODE clear; the `write`
leaves SPE cleared).  `none` models the `unreachable!()` divisor case. -/
def spi_init (mode : Mode) (pclk speed : Nat) : Option CR1 :=
  (spiBr pclk speed).map fun k =>
    { cpha := decide (mode.phase = Phase.CaptureOnSecondTransition)
      cpol := decide (mode.polarity = Polarity.IdleHigh)
      mstr := true
      br := k
      lsbfirst := false
      ssm := true
      ssi := true
      rxonly := false
      bidimode := false
      spe := false }

/-- The data-size field DS of CR2 (`eight_bit` / `sixteen_bit` variants). -/
inductive Ds where
  | eight_bit
  | sixteen_bit
  deriving DecidableEq

/-- The CR2 fields written by the width-conversion operations. -/
structure CR2f where
  frxth : Bool
  ds : Ds
  ssoe : Bool
  deriving DecidableEq

/-- Operation `into_8bit_width` (src/spi.rs lines 393-406): writes CR2 with FRXTH set,
DS = eight_bit, SSOE cleared. -/
def into_8bit_width : CR2f :=
  { frxth := true, ds := Ds.eight_bit, ssoe := false }

/-- Operation `into_16bit_width` (src/spi.rs lines 408-421): writes CR2 with FRXTH set,
DS = sixteen_bit, SSOE cleared. -/
def into_16bit_width : CR2f :=
  { frxth := true, ds := Ds.sixteen_bit, ssoe := false }

/-- Modelled from the spec: the FRXTH value under which "a receive-ready
signal fires once per whole element" of the given width.  The hardware
meaning of FRXTH is not part of this repository (it lives in the external
register definitions): per the spec's words, the threshold matching an
8-bit element is the quarter-FIFO (one byte) threshold, FRXTH set, and the
threshold matching a 16-bit element is the half-FIFO (two byte) threshold,
FRXTH clear. -/
def matching_frxth : Ds → Bool
  | Ds.eight_bit => true
  | Ds.sixteen_bit => false

/-- Operation `enable` (src/spi.rs): sets the SPE bit of CR1 and changes nothing else. -/
def enable (c : CR1) : CR1 :=
  { c with spe := true }

/-- The controller constructor `spi1` (src/spi.rs macro `spi!`):
`spi_init(mode, speed, clocks).into_8bit_width().enable()`.  The result is
the (CR1, CR2) register contents of the constructed handle. -/
def spi1 (mode : Mode) (pclk speed : Nat) : Option (CR1 × CR2f) :=
  (spi_init mode pclk speed).map fun c1 => (enable c1, into_8bit_width)

/-- The peripheral's registers as raw words, for the `reset` operation,
which reads and writes CR1/CR2 as whole words (`w.bits(...)`).  `sr` stands
for the rest of the peripheral state, not restored by `reset`. -/
structure Dev where
  cr1 : Nat
  cr2 : Nat
  sr : Nat

/-- Operation `reset` (src/spi.rs lines 271-278): reads CR1 and CR2, pulses the RCC
reset line (modelled by an arbitrary `pulse` transformation of the
peripheral state, since the reset collaborator is external), then writes
back CR2 and CR1 in that order. -/
def reset (pulse : Dev → Dev) (d : Dev) : Dev :=
  let cr1 := d.cr1
  let cr2 := d.cr2
  let d1 := pulse d
  let d2 := { d1 with cr2 := cr2 }
  { d2 with cr1 := cr1 }

/-!
The 8-bit full-duplex `transfer` (src/spi.rs lines 507-546) as a small-step
state machine.  Each step performs at most one status-register read; `Loc8`
is the program location:

* `mainCheck`: the guard of the outer `while read_pos < words.len()` loop;
* `fill`: the fill loop `while write_pos < words.len() && check_send().is_ok()`
  (the poll happens only when `write_pos < words.len()`, by short-circuiting);
* `rd`: the read loop `while check_read().is_ok() && read_pos < write_pos`
  (the poll happens on every evaluation of the condition);
* `drain`: the drain loop after the outer loop, returning
  `Err(IncompleteTransfer)` on the first unready poll;
* `finalCheck`: the final `if self.spi.sr.read().ovr()` check;
* `done r`: the function has returned `r`.
-/

/-- Program location of the 8-bit full-duplex transfer. -/
inductive Loc8 where
  | mainCheck
  | fill
  | rd
  | drain
  | finalCheck
  | done (r : Except Error (List Nat))

/-- Machine state of the 8-bit full-duplex transfer: location, the two
cursors `read_pos` and `write_pos`, the number `i` of status-register reads
performed so far, the number `j` of data-register reads performed so far,
the (mutated in place) buffer `words`, and the log `sent` of data-register
writes in order. -/
structure St8 where
  phase : Loc8
  rp : Nat
  wp : Nat
  i : Nat
  j : Nat
  buf : List Nat
  sent : List Nat

/-- Initial state of the 8-bit transfer on buffer `ws`:
`read_pos = write_pos = 0`, nothing polled, sent or received. -/
def init8 (ws : List Nat) : St8 :=
  { phase := Loc8.mainCheck, rp := 0, wp := 0, i := 0, j := 0, buf := ws, sent := [] }

/-- One step of the 8-bit full-duplex transfer. -/
def step8 (σ : Nat → SR) (rx : Nat → Nat) (s : St8) : St8 :=
  match s.phase with
  | Loc8.mainCheck =>
      if s.rp < s.buf.length then { s with phase := Loc8.fill }
      else { s with phase := Loc8.drain }
  | Loc8.fill =>
      if s.wp < s.buf.length then
        if check_send (σ s.i) = NbResult.ok then
          { s with i := s.i + 1, wp := s.wp + 1, sent := s.sent ++ [s.buf.getD s.wp 0] }
        else { s with i := s.i + 1, phase := Loc8.rd }
      else { s with phase := Loc8.rd }
  | Loc8.rd =>
      if check_read (σ s.i) = NbResult.ok ∧ s.rp < s.wp then
        { s with i := s.i + 1, j := s.j + 1, rp := s.rp + 1, buf := s.buf.set s.rp (rx s.j) }
      else { s with i := s.i + 1, phase := Loc8.mainCheck }
  | Loc8.drain =>
      if s.rp < s.buf.length then
        if check_read (σ s.i) = NbResult.ok then
          { s with i := s.i + 1, j := s.j + 1, rp := s.rp + 1, buf := s.buf.set s.rp (rx s.j) }
        else { s with i := s.i + 1, phase := Loc8.done (Except.error Error.IncompleteTransfer) }
      else { s with phase := Loc8.finalCheck }
  | Loc8.finalCheck =>
      { s with i := s.i + 1,
               phase := Loc8.done
                 (if (σ s.i).ovr then Except.error Error.Overrun else Except.ok s.buf) }
  | Loc8.done _ => s

/-- The value returned by the machine, if it has returned. -/
def resultOf (s : St8) : Option (Except Error (List Nat)) :=
  match s.phase with
  | Loc8.done r => some r
  | _ => none

/-- The 8-bit full-duplex `transfer`, run for `fuel` machine steps:
`some r` when the function has returned `r` within that many steps. -/
def transfer_u8 (σ : Nat → SR) (rx : Nat → Nat) (ws : List Nat) (fuel : Nat) :
    Option (Except Error (List Nat)) :=
  resultOf ((step8 σ rx)^[fuel] (init8 ws))

/-- Macro expansion of `nb::block!(check(...))`: repeat the poll `check` from status-read
index `i` until it is not `WouldBlock`; returns the outcome and the next
status-read index.  `none` when not resolved within `fuel` polls. -/
def nb_block (check : SR → NbResult) (σ : Nat → SR) : Nat → Nat → Option (Except Error Unit × Nat)
  | 0, _ => none
  | fuel + 1, i =>
    match check (σ i) with
    | NbResult.ok => some (Except.ok (), i + 1)
    | NbResult.wouldBlock => nb_block check σ fuel (i + 1)
    | NbResult.err e => some (Except.error e, i + 1)

/-- The per-element loop of the 16-bit full-duplex `transfer`
(src/spi.rs lines 583-607): for each element, `nb::block!(check_send())?`,
send, `nb::block!(check_read())?`, overwrite the element with the received
value.  Arguments: remaining elements, status-read index `i`, data-read
index `j`, received values so far (reversed).  Returns the result, the
final status-read index and the final data-read index. -/
def transfer_u16_go (σ : Nat → SR) (rx : Nat → Nat) (fuel : Nat) :
    List Nat → Nat → Nat → List Nat → Option (Except Error (List Nat) × Nat × Nat)
  | [], i, j, acc => some (Except.ok acc.reverse, i, j)
  | _ :: ws, i, j, acc =>
    match nb_block check_send σ fuel i with
    | none => none
    | some (Except.error e, i1) => some (Except.error e, i1, j)
    | some (Except.ok _, i1) =>
      match nb_block check_read σ fuel i1 with
      | none => none
      | some (Except.error e, i2) => some (Except.error e, i2, j)
      | some (Except.ok _, i2) => transfer_u16_go σ rx fuel ws i2 (j + 1) (rx j :: acc)

/-- The 16-bit full-duplex `transfer`. -/
def transfer_u16 (σ : Nat → SR) (rx : Nat → Nat) (ws : List Nat) (fuel : Nat) :
    Option (Except Error (List Nat) × Nat × Nat) :=
  transfer_u16_go σ rx fuel ws 0 0 []

/-- The `while bufcap == 0 { bufcap = self.send_buffer_size(); }` loop of
the 8-bit `write` (src/spi.rs lines 567-570): reads FTLVL until the
capacity estimate is nonzero.  Returns the capacity and next status-read
index. -/
def write_u8_cap (σ : Nat → SR) : Nat → Nat → Nat → Option (Nat × Nat)
  | 0, bufcap, i => if bufcap = 0 then none else some (bufcap, i)
  | fuel + 1, bufcap, i =>
    if bufcap = 0 then write_u8_cap σ fuel (send_buffer_size (σ i)) (i + 1)
    else some (bufcap, i)

/-- The `for word in words` loop of the 8-bit `write`: refill the capacity
estimate when exhausted, then send the element.  Tracks the sent log. -/
def write_u8_loop (σ : Nat → SR) (fuel : Nat) :
    List Nat → Nat → Nat → List Nat → Option (Nat × Nat × List Nat)
  | [], bufcap, i, sent => some (bufcap, i, sent)
  | w :: ws, bufcap, i, sent =>
    match write_u8_cap σ fuel bufcap i with
    | none => none
    | some (c, i1) => write_u8_loop σ fuel ws (c - 1) i1 (sent ++ [w])

/-- The 8-bit send-only `write` (src/spi.rs lines 556-580):
`nb::block!(check_send())?`, the capacity-estimated send loop, then the
final `nb::block!(check_send()).ok()` whose outcome is discarded.  Returns
the result, the total number of status-register reads, and the sent log. -/
def write_u8 (σ : Nat → SR) (ws : List Nat) (fuel : Nat) :
    Option (Except Error Unit × Nat × List Nat) :=
  match nb_block check_send σ fuel 0 with
  | none => none
  | some (Except.error e, i) => some (Except.error e, i, [])
  | some (Except.ok _, i) =>
    match write_u8_loop σ fuel ws 0 i [] with
    | none => none
    | some (_, i1, sent) =>
      match nb_block check_send σ fuel i1 with
      | none => none
      | some (_, i2) => some (Except.ok (), i2, sent)

/-- The `for word in words` loop of the 16-bit `write` (src/spi.rs lines
612-624): `nb::block!(check_send())?` then send, per element. -/
def write_u16_loop (σ : Nat → SR) (fuel : Nat) : List Nat → Nat → Option (Except Error Unit × Nat)
  | [], i => some (Except.ok (), i)
  | _ :: ws, i =>
    match nb_block check_send σ fuel i with
    | none => none
    | some (Except.error e, i1) => some (Except.error e, i1)
    | some (Except.ok _, i1) => write_u16_loop σ fuel ws i1

/-- The 16-bit send-only `write`: the send loop, then the final
`nb::block!(check_send()).ok()` whose outcome is discarded. -/
def write_u16 (σ : Nat → SR) (ws : List Nat) (fuel : Nat) :
    Option (Except Error Unit × Nat) :=
  match write_u16_loop σ fuel ws 0 with
  | none => none
  | some (Except.error e, i) => some (Except.error e, i)
  | some (Except.ok _, i) =>
    match nb_block check_send σ fuel i with
    | none => none
    | some (_, i1) => some (Except.ok (), i1)

/-! Concrete status-register snapshots and streams used as test inputs. -/

/-- An idle status register: no fault, nothing ready. -/
def srIdle : SR := { ovr := false, modf := false, rxne := false, txe := false, bsy := false, ftlvl := 0 }

/-- Ready to send: TXE set, BSY clear, no fault. -/
def srSendReady : SR := { srIdle with txe := true }

/-- Ready to read: RXNE set, no fault. -/
def srRecvReady : SR := { srIdle with rxne := true }

/-- Overrun bit set. -/
def srOvrSet : SR := { srIdle with ovr := true }

/-- Ready for both directions, no fault. -/
def srAllReady : SR := { srIdle with rxne := true, txe := true }

/-- A status stream for a one-element transfer in which the second poll
observes a transient overrun that has cleared again by the third poll. -/
def σTransient : Nat → SR :=
  fun k => [srSendReady, srOvrSet, srRecvReady, srIdle, srIdle].getD k srIdle

/-- A status stream with the overrun bit permanently set. -/
def σOvr : Nat → SR := fun _ => srOvrSet

/-- A status stream that is always ready in both directions, never faulted. -/
def σReady : Nat → SR := fun _ => srAllReady

/-- A status stream that is ready to send exactly once and then never
ready again (and never faulted): the bus stalls after the transmission. -/
def σStall : Nat → SR := fun k => if k = 0 then srSendReady else srIdle

/-- A data-register read stream that always returns 0. -/
def rxz : Nat → Nat := fun _ => 0

/-- The invariant of the 8-bit full-duplex transfer machine (claim C2):
the cursors are ordered `read_pos ≤ write_pos ≤ N`; the data-register
reads count equals `read_pos`; the sent log is exactly the first
`write_pos` elements of the original buffer, in order (so no element is
sent twice, and elements are sent in order); the buffer holds the received
values at positions below `read_pos`, in arrival order, and the original
elements at positions from `read_pos` on; and the drain loop is entered
only once every element has been read. -/
def inv8 (rx : Nat → Nat) (ws : List Nat) (s : St8) : Prop :=
  s.rp ≤ s.wp ∧ s.wp ≤ ws.length ∧ s.j = s.rp ∧ s.buf.length = ws.length ∧
  s.sent = ws.take s.wp ∧
  (∀ t, s.buf[t]? = if t < s.rp then some (rx t) else ws[t]?) ∧
  (s.phase = Loc8.drain → ws.length ≤ s.rp)

/-- States of the stalled one-element transfer after the element has been
sent: the machine cycles through the three main-loop locations with the
cursors frozen, never reaching `done`. -/
def stallInv (s : St8) : Prop :=
  (s.phase = Loc8.mainCheck ∨ s.phase = Loc8.fill ∨ s.phase = Loc8.rd) ∧
  s.rp = 0 ∧ s.wp = 1 ∧ s.buf = [0] ∧ 1 ≤ s.i

/-- No state of the 8-bit transfer machine returns the `Crc` error. -/
def notCrc8 (s : St8) : Prop :=
  ∀ r, s.phase = Loc8.done r → r ≠ Except.error Error.Crc

/-- If the 8-bit transfer machine has returned `Err(Overrun)`, the last
status-register read (the final post-completion check) had OVR set. -/
def ovrFromFinal (σ : Nat → SR) (s : St8) : Prop :=
  s.phase = Loc8.done (Except.error Error.Overrun) → (σ (s.i - 1)).ovr = true

/-! ### The divisor calculator -/

/-- Inversion of the divisor bucket selection: the selector determines the
bucket the quotient fell in. -/
theorem brOfQuot_inv (r k : Nat) (h : brOfQuot r = some k) :
    (k = 0 ∧ 1 ≤ r ∧ r ≤ 2) ∨ (k = 1 ∧ 3 ≤ r ∧ r ≤ 5) ∨ (k = 2 ∧ 6 ≤ r ∧ r ≤ 11) ∨
    (k = 3 ∧ 12 ≤ r ∧ r ≤ 23) ∨ (k = 4 ∧ 24 ≤ r ∧ r ≤ 47) ∨ (k = 5 ∧ 48 ≤ r ∧ r ≤ 95) ∨
    (k = 6 ∧ 96 ≤ r ∧ r ≤ 191) ∨ (k = 7 ∧ 192 ≤ r) := by
  unfold brOfQuot at h
  split_ifs at h with h0 h1 h2 h3 h4 h5 h6 h7 <;> simp_all <;> omega

/-- Claim C3: for every `f_in` and `f_req` with `0 < f_req ≤ f_in`, the
divisor selector is exactly the bucket of the integer ratio
`r = f_in / f_req`: r∈[1,2]→0, [3,5]→1, [6,11]→2, [12,23]→3, [24,47]→4,
[48,95]→5, [96,191]→6, [192,∞)→7. -/
theorem spiBr_ratio_buckets (pclk speed : Nat) (_hpos : 0 < speed) (_hle : speed ≤ pclk) :
    (1 ≤ pclk / speed → pclk / speed ≤ 2 → spiBr pclk speed = some 0) ∧
    (3 ≤ pclk / speed → pclk / speed ≤ 5 → spiBr pclk speed = some 1) ∧
    (6 ≤ pclk / speed → pclk / speed ≤ 11 → spiBr pclk speed = some 2) ∧
    (12 ≤ pclk / speed → pclk / speed ≤ 23 → spiBr pclk speed = some 3) ∧
    (24 ≤ pclk / speed → pclk / speed ≤ 47 → spiBr pclk speed = some 4) ∧
    (48 ≤ pclk / speed → pclk / speed ≤ 95 → spiBr pclk speed = some 5) ∧
    (96 ≤ pclk / speed → pclk / speed ≤ 191 → spiBr pclk speed = some 6) ∧
    (192 ≤ pclk / speed → spiBr pclk speed = some 7) := by
  unfold spiBr brOfQuot
  refine ⟨?_, ?_, ?_, ?_, ?_, ?_, ?_, ?_⟩ <;> intros <;> split_ifs <;>
    first | rfl | (exfalso; omega)

/-- Witness for C3: a 48 MHz input clock with a 1 MHz request falls in the
[48,95] bucket, giving selector 5. -/
theorem spiBr_ratio_buckets_witness : spiBr 48000000 1000000 = some 5 :=
  (spiBr_ratio_buckets 48000000 1000000 (by decide) (by decide)).2.2.2.2.2.1
    (by decide) (by decide)

/-- Claim C4 counterexample: at `f_in = 23`, `f_req = 4` the ratio is 5 and
the selector is `k = 1`, but the effective rate `23 / 2^(1+1) = 5` exceeds
`f_req = 4` — the claim's bound "the effective rate never exceeds `f_req`"
is false (the code rounds to the nearest power of two, not upward). -/
theorem spiBr_rate_can_exceed_request : spiBr 23 4 = some 1 ∧ 4 < 23 / 2 ^ (1 + 1) :=
  ⟨rfl, by decide⟩

/-- Claim C4 (amended): the selector is deterministic (a function of the
integer ratio alone) and monotonic (non-decreasing in the ratio), and for
ratios of at most 191 the effective rate `f_in / 2^(k+1)` is below
`(3/2) · f_req` — it can exceed `f_req`, but by less than half of it. -/
theorem spiBr_deterministic_monotone_bounded :
    (∀ p1 s1 p2 s2 : Nat, p1 / s1 = p2 / s2 → spiBr p1 s1 = spiBr p2 s2) ∧
    (∀ p1 s1 p2 s2 k1 k2 : Nat, p1 / s1 ≤ p2 / s2 →
      spiBr p1 s1 = some k1 → spiBr p2 s2 = some k2 → k1 ≤ k2) ∧
    (∀ p s k : Nat, 0 < s → s ≤ p → p / s ≤ 191 → spiBr p s = some k →
      2 * (p / 2 ^ (k + 1)) < 3 * s) := by
  refine ⟨fun p1 s1 p2 s2 h => by simp [spiBr, h], ?_, ?_⟩
  · intro p1 s1 p2 s2 k1 k2 hle h1 h2
    rcases brOfQuot_inv _ _ h1 with
      ⟨rfl,hl,hh⟩|⟨rfl,hl,hh⟩|⟨rfl,hl,hh⟩|⟨rfl,hl,hh⟩|⟨rfl,hl,hh⟩|⟨rfl,hl,hh⟩|⟨rfl,hl,hh⟩|⟨rfl,hl⟩ <;>
    rcases brOfQuot_inv _ _ h2 with
      ⟨rfl,gl,gh⟩|⟨rfl,gl,gh⟩|⟨rfl,gl,gh⟩|⟨rfl,gl,gh⟩|⟨rfl,gl,gh⟩|⟨rfl,gl,gh⟩|⟨rfl,gl,gh⟩|⟨rfl,gl⟩ <;>
      omega
  · intro p s k hs _hsp hq h
    rcases brOfQuot_inv _ _ h with
      ⟨rfl,hl,hh⟩|⟨rfl,hl,hh⟩|⟨rfl,hl,hh⟩|⟨rfl,hl,hh⟩|⟨rfl,hl,hh⟩|⟨rfl,hl,hh⟩|⟨rfl,hl,hh⟩|⟨rfl,hl⟩
    · have hp : p < 3 * s := (Nat.div_lt_iff_lt_mul hs).mp (by omega)
      norm_num
      omega
    · have hp : p < 6 * s := (Nat.div_lt_iff_lt_mul hs).mp (by omega)
      norm_num
      omega
    · have hp : p < 12 * s := (Nat.div_lt_iff_lt_mul hs).mp (by omega)
      norm_num
      omega
    · have hp : p < 24 * s := (Nat.div_lt_iff_lt_mul hs).mp (by omega)
      norm_num
      omega
    · have hp : p < 48 * s := (Nat.div_lt_iff_lt_mul hs).mp (by omega)
      norm_num
      omega
    · have hp : p < 96 * s := (Nat.div_lt_iff_lt_mul hs).mp (by omega)
      norm_num
      omega
    · have hp : p < 192 * s := (Nat.div_lt_iff_lt_mul hs).mp (by omega)
      norm_num
      omega
    · omega

/-- Witness for the amended C4, exercising all three conjuncts at concrete
inputs: 4/2 and 6/3 have equal ratios, ratio 2 gives a selector below
ratio 48's, and at (48, 1) the bounded-excess inequality holds. -/
theorem spiBr_deterministic_monotone_bounded_witness :
    spiBr 4 2 = spiBr 6 3 ∧ (0 : Nat) ≤ 5 ∧ 2 * (48 / 2 ^ (5 + 1)) < 3 * 1 :=
  ⟨spiBr_deterministic_monotone_bounded.1 4 2 6 3 rfl,
   spiBr_deterministic_monotone_bounded.2.1 4 2 48 1 0 5 (by decide) rfl rfl,
   spiBr_deterministic_monotone_bounded.2.2 48 1 5 (by decide) (by decide) (by decide) rfl⟩

/-- Claim C5 counterexample: constructing the controller handle with a
1 MHz target from a 48 MHz input does not compute selector 4: ratio 48
falls in the [48,95] bucket of the source's `match`, not [24,47]. -/
theorem spi1_48MHz_1MHz_not_k4 :
    (spi1 { polarity := Polarity.IdleHigh, phase := Phase.CaptureOnSecondTransition }
        48000000 1000000).map (fun p => p.1.br) ≠ some 4 := by
  decide

/-- Claim C5 (amended): constructing a controller handle with a 1 MHz
target rate from a 48 MHz input clock (ratio 48) computes the divisor
selector `k = 5` (effective rate 48 MHz / 2^6 = 750 kHz). -/
theorem spi1_48MHz_1MHz_k5 :
    (spi1 { polarity := Polarity.IdleHigh, phase := Phase.CaptureOnSecondTransition }
        48000000 1000000).map (fun p => p.1.br) = some 5 := rfl

/-! ### Configuration operations -/

/-- Claim C8: `reset` reads CR1 and CR2 before the reset pulse and restores
them afterward: whatever the pulse does to the peripheral state, the
control-register contents after the call — including the SPE enable bit,
bit 6 of CR1 — equal their values before it, so a disabled unit is not
re-enabled. -/
theorem reset_preserves_control_registers (pulse : Dev → Dev) (d : Dev) :
    (reset pulse d).cr1 = d.cr1 ∧ (reset pulse d).cr2 = d.cr2 ∧
    (reset pulse d).cr1.testBit 6 = d.cr1.testBit 6 :=
  ⟨rfl, rfl, rfl⟩

/-- Claim C7 (the code does not match it): both width conversions disable
slave-select output and write the data-size field for the new width, and
`into_8bit_width` sets the receive threshold matching an 8-bit element;
but `into_16bit_width` also sets FRXTH — the one-byte threshold — which is
not the threshold matching a 16-bit element (`matching_frxth`, modelled
from the spec's words).  This contradicts the claim and the code's own
comment ("FRXTH: 16-bit threshold on RX FIFO"). -/
theorem width_conversion_frxth_mismatch :
    into_8bit_width.ssoe = false ∧ into_8bit_width.ds = Ds.eight_bit ∧
    into_8bit_width.frxth = matching_frxth Ds.eight_bit ∧
    into_16bit_width.ssoe = false ∧ into_16bit_width.ds = Ds.sixteen_bit ∧
    into_16bit_width.frxth = true ∧ matching_frxth Ds.sixteen_bit = false := by
  decide

/-! ### The 8-bit transfer machine: cursor invariant -/

/-- One step of the 8-bit transfer machine preserves the cursor invariant. -/
theorem inv8_step (σ : Nat → SR) (rx : Nat → Nat) (ws : List Nat) (s : St8)
    (h : inv8 rx ws s) : inv8 rx ws (step8 σ rx s) := by
  obtain ⟨ph, rp, wp, i, j, buf, sent⟩ := s
  obtain ⟨h1, h2, h3, h4, h5, h6, h7⟩ := h
  dsimp only at h1 h2 h3 h4 h5 h6 h7
  cases ph with
  | mainCheck =>
    by_cases hg : rp < buf.length
    · simp only [step8, if_pos hg]
      unfold inv8
      dsimp only
      exact ⟨h1, h2, h3, h4, h5, h6, fun hcon => nomatch hcon⟩
    · simp only [step8, if_neg hg]
      unfold inv8
      dsimp only
      exact ⟨h1, h2, h3, h4, h5, h6, fun _ => by omega⟩
  | fill =>
    by_cases hg : wp < buf.length
    · by_cases hc : check_send (σ i) = NbResult.ok
      · simp only [step8, if_pos hg, if_pos hc]
        unfold inv8
        dsimp only
        have hwlen : wp < ws.length := by omega
        have hb : buf[wp]? = ws[wp]? := by
          have := h6 wp
          rwa [if_neg (by omega)] at this
        have hget : buf.getD wp 0 = ws[wp] := by
          rw [List.getD_eq_getElem?_getD, hb, List.getElem?_eq_getElem hwlen]
          rfl
        refine ⟨by omega, by omega, h3, h4, ?_, h6, fun hcon => nomatch hcon⟩
        simp only [h5, hget, List.take_succ, List.getElem?_eq_getElem hwlen]
        simp
      · simp only [step8, if_pos hg, if_neg hc]
        unfold inv8
        dsimp only
        exact ⟨h1, h2, h3, h4, h5, h6, fun hcon => nomatch hcon⟩
    · simp only [step8, if_neg hg]
      unfold inv8
      dsimp only
      exact ⟨h1, h2, h3, h4, h5, h6, fun hcon => nomatch hcon⟩
  | rd =>
    by_cases hc : check_read (σ i) = NbResult.ok ∧ rp < wp
    · obtain ⟨hok, hlt⟩ := hc
      simp only [step8, if_pos (And.intro hok hlt)]
      unfold inv8
      dsimp only
      have hblen : rp < buf.length := by omega
      refine ⟨by omega, h2, by omega, by simp [h4], h5, ?_, fun hcon => nomatch hcon⟩
      intro t
      simp only [List.getElem?_set]
      by_cases ht : rp = t
      · subst ht
        rw [if_pos rfl, if_pos hblen, if_pos (by omega), h3]
      · rw [if_neg ht]
        have h6t := h6 t
        simp only [h6t]
        by_cases htlt : t < rp
        · rw [if_pos htlt, if_pos (by omega)]
        · rw [if_neg htlt, if_neg (by omega)]
    · simp only [step8, if_neg hc]
      unfold inv8
      dsimp only
      exact ⟨h1, h2, h3, h4, h5, h6, fun hcon => nomatch hcon⟩
  | drain =>
    have hdr : ws.length ≤ rp := h7 rfl
    by_cases hg : rp < buf.length
    · exact absurd hg (by omega)
    · simp only [step8, if_neg hg]
      unfold inv8
      dsimp only
      exact ⟨h1, h2, h3, h4, h5, h6, fun hcon => nomatch hcon⟩
  | finalCheck =>
    simp only [step8]
    unfold inv8
    dsimp only
    exact ⟨h1, h2, h3, h4, h5, h6, fun hcon => nomatch hcon⟩
  | done r =>
    simp only [step8]
    exact ⟨h1, h2, h3, h4, h5, h6, h7⟩

/-- The cursor invariant holds in the initial state. -/
theorem inv8_init (rx : Nat → Nat) (ws : List Nat) : inv8 rx ws (init8 ws) := by
  refine ⟨Nat.le_refl 0, Nat.zero_le _, rfl, rfl, by simp [init8], ?_, fun hcon => nomatch hcon⟩
  intro t
  simp [init8]

/-- The cursor invariant holds after any number of machine steps. -/
theorem inv8_iterate (σ : Nat → SR) (rx : Nat → Nat) (ws : List Nat) (n : Nat) :
    inv8 rx ws ((step8 σ rx)^[n] (init8 ws)) := by
  induction n with
  | zero => exact inv8_init rx ws
  | succ n ih =>
    rw [Function.iterate_succ_apply']
    exact inv8_step σ rx ws _ ih

/-- Claim C2: throughout the 8-bit full-duplex transfer on a buffer of
length N, the cursors start at 0 and satisfy `read_pos ≤ write_pos ≤ N` at
every step; the sent log is always the first `write_pos` buffer elements
in order (no element sent more than once), and received values occupy
positions `0..read_pos` of the buffer in arrival order (received in order
at increasing positions) — `inv8` spells out these properties. -/
theorem transfer_u8_cursor_invariant (σ : Nat → SR) (rx : Nat → Nat) (ws : List Nat) (n : Nat) :
    (init8 ws).rp = 0 ∧ (init8 ws).wp = 0 ∧ inv8 rx ws ((step8 σ rx)^[n] (init8 ws)) :=
  ⟨rfl, rfl, inv8_iterate σ rx ws n⟩

/-! ### Behaviour of the blocking polls -/

/-- Poll `check_send` reports a fault whenever OVR or MODF is set (OVR first). -/
theorem check_send_fault (sr : SR) (h : sr.ovr = true ∨ sr.modf = true) :
    check_send sr = NbResult.err (if sr.ovr then Error.Overrun else Error.ModeFault) := by
  unfold check_send
  by_cases ho : sr.ovr = true
  · simp [ho]
  · have hm : sr.modf = true := by
      rcases h with h | h
      · exact absurd h ho
      · exact h
    simp [ho, hm]

/-- Poll `check_read` reports a fault whenever OVR or MODF is set (OVR first). -/
theorem check_read_fault (sr : SR) (h : sr.ovr = true ∨ sr.modf = true) :
    check_read sr = NbResult.err (if sr.ovr then Error.Overrun else Error.ModeFault) := by
  unfold check_read
  by_cases ho : sr.ovr = true
  · simp [ho]
  · have hm : sr.modf = true := by
      rcases h with h | h
      · exact absurd h ho
      · exact h
    simp [ho, hm]

/-- The only faults `check_send` can report are Overrun and ModeFault. -/
theorem check_send_err (sr : SR) (e : Error) (h : check_send sr = NbResult.err e) :
    e = Error.Overrun ∨ e = Error.ModeFault := by
  unfold check_send at h
  split_ifs at h <;> simp_all

/-- The only faults `check_read` can report are Overrun and ModeFault. -/
theorem check_read_err (sr : SR) (e : Error) (h : check_read sr = NbResult.err e) :
    e = Error.Overrun ∨ e = Error.ModeFault := by
  unfold check_read at h
  split_ifs at h <;> simp_all

/-- A blocking poll consumes at least one status read; and if any of the
status snapshots it consumed had OVR or MODF set, the earliest faulted
snapshot was the last one consumed and the block returned that fault. -/
theorem nb_block_fault (check : SR → NbResult) (σ : Nat → SR)
    (hc : ∀ sr, sr.ovr = true ∨ sr.modf = true →
      check sr = NbResult.err (if sr.ovr then Error.Overrun else Error.ModeFault)) :
    ∀ fuel i r i1, nb_block check σ fuel i = some (r, i1) →
      i < i1 ∧
      ∀ k, i ≤ k → k < i1 → ((σ k).ovr = true ∨ (σ k).modf = true) →
        i1 = k + 1 ∧ r = Except.error (if (σ k).ovr then Error.Overrun else Error.ModeFault) := by
  intro fuel
  induction fuel with
  | zero =>
    intro i r i1 h
    exact absurd h (by simp [nb_block])
  | succ fuel ih =>
    intro i r i1 h
    unfold nb_block at h
    cases hck : check (σ i) with
    | ok =>
      rw [hck] at h
      simp only [Option.some.injEq, Prod.mk.injEq] at h
      obtain ⟨hr, hi⟩ := h
      subst hi
      refine ⟨Nat.lt_succ_self i, ?_⟩
      intro k hk1 hk2 hflt
      have hk : k = i := by omega
      subst hk
      rw [hc _ hflt] at hck
      exact absurd hck (by simp)
    | wouldBlock =>
      rw [hck] at h
      obtain ⟨hlt, hall⟩ := ih (i + 1) r i1 h
      refine ⟨by omega, ?_⟩
      intro k hk1 hk2 hflt
      by_cases hk : k = i
      · subst hk
        rw [hc _ hflt] at hck
        exact absurd hck (by simp)
      · exact hall k (by omega) hk2 hflt
    | err e =>
      rw [hck] at h
      simp only [Option.some.injEq, Prod.mk.injEq] at h
      obtain ⟨hr, hi⟩ := h
      subst hi
      subst hr
      refine ⟨Nat.lt_succ_self i, ?_⟩
      intro k hk1 hk2 hflt
      have hk : k = i := by omega
      subst hk
      refine ⟨rfl, ?_⟩
      have hce := hc _ hflt
      rw [hck] at hce
      simp only [NbResult.err.injEq] at hce
      rw [hce]

/-- A blocking poll only ever fails with a fault its check can report. -/
theorem nb_block_err (check : SR → NbResult) (σ : Nat → SR)
    (hc : ∀ sr e, check sr = NbResult.err e → e = Error.Overrun ∨ e = Error.ModeFault) :
    ∀ fuel i e i1, nb_block check σ fuel i = some (Except.error e, i1) →
      e = Error.Overrun ∨ e = Error.ModeFault := by
  intro fuel
  induction fuel with
  | zero =>
    intro i e i1 h
    exact absurd h (by simp [nb_block])
  | succ fuel ih =>
    intro i e i1 h
    unfold nb_block at h
    cases hck : check (σ i) with
    | ok =>
      rw [hck] at h
      simp at h
    | wouldBlock =>
      rw [hck] at h
      exact ih _ _ _ h
    | err e2 =>
      rw [hck] at h
      simp only [Option.some.injEq, Prod.mk.injEq, Except.error.injEq] at h
      obtain ⟨rfl, _⟩ := h
      exact hc _ _ hck

/-! ### Fault propagation in the 16-bit transfer and the writes -/

/-- Generalized over the starting status-read index: every status snapshot
the 16-bit transfer loop consumes that has OVR or MODF set is the last one
consumed, and the loop returns that fault. -/
theorem transfer_u16_go_fault (σ : Nat → SR) (rx : Nat → Nat) (fuel : Nat) :
    ∀ ws i0 j0 acc res i j,
      transfer_u16_go σ rx fuel ws i0 j0 acc = some (res, i, j) →
      i0 ≤ i ∧
      ∀ k, i0 ≤ k → k < i → ((σ k).ovr = true ∨ (σ k).modf = true) →
        i = k + 1 ∧ res = Except.error (if (σ k).ovr then Error.Overrun else Error.ModeFault) := by
  intro ws
  induction ws with
  | nil =>
    intro i0 j0 acc res i j h
    unfold transfer_u16_go at h
    simp only [Option.some.injEq, Prod.mk.injEq] at h
    obtain ⟨hres, hi, hj⟩ := h
    subst hi
    exact ⟨Nat.le_refl i0, fun k hk1 hk2 _ => absurd hk2 (by omega)⟩
  | cons w ws ih =>
    intro i0 j0 acc res i j h
    unfold transfer_u16_go at h
    cases hb1 : nb_block check_send σ fuel i0 with
    | none =>
      rw [hb1] at h
      exact absurd h (by simp)
    | some p1 =>
      obtain ⟨r1, i1⟩ := p1
      rw [hb1] at h
      obtain ⟨hlt1, hall1⟩ := nb_block_fault check_send σ check_send_fault fuel i0 _ _ hb1
      cases r1 with
      | error e =>
        simp only [Option.some.injEq, Prod.mk.injEq] at h
        obtain ⟨hres, hi, hj⟩ := h
        subst hi hres
        refine ⟨by omega, ?_⟩
        intro k hk1 hk2 hflt
        obtain ⟨ha, hb⟩ := hall1 k hk1 hk2 hflt
        injection hb with hb
        exact ⟨ha, by rw [hb]⟩
      | ok =>
        dsimp only at h
        cases hb2 : nb_block check_read σ fuel i1 with
        | none =>
          rw [hb2] at h
          exact absurd h (by simp)
        | some p2 =>
          obtain ⟨r2, i2⟩ := p2
          rw [hb2] at h
          obtain ⟨hlt2, hall2⟩ := nb_block_fault check_read σ check_read_fault fuel i1 _ _ hb2
          cases r2 with
          | error e =>
            simp only [Option.some.injEq, Prod.mk.injEq] at h
            obtain ⟨hres, hi, hj⟩ := h
            subst hi hres
            refine ⟨by omega, ?_⟩
            intro k hk1 hk2 hflt
            by_cases hk : k < i1
            · obtain ⟨_, hcon⟩ := hall1 k hk1 hk hflt
              exact absurd hcon (by simp)
            · obtain ⟨ha, hb⟩ := hall2 k (by omega) hk2 hflt
              injection hb with hb
              exact ⟨ha, by rw [hb]⟩
          | ok =>
            dsimp only at h
            obtain ⟨hle3, hall3⟩ := ih i2 (j0 + 1) (rx j0 :: acc) res i j h
            refine ⟨by omega, ?_⟩
            intro k hk1 hk2 hflt
            by_cases hk : k < i1
            · obtain ⟨_, hcon⟩ := hall1 k hk1 hk hflt
              exact absurd hcon (by simp)
            · by_cases hk3 : k < i2
              · obtain ⟨_, hcon⟩ := hall2 k (by omega) hk3 hflt
                exact absurd hcon (by simp)
              · exact hall3 k (by omega) hk2 hflt

/-- Generalized over the starting status-read index: every status snapshot
the 16-bit write's send loop consumes that has OVR or MODF set is the last
one consumed, and the loop returns that fault. -/
theorem write_u16_loop_fault_aux (σ : Nat → SR) (fuel : Nat) :
    ∀ ws i0 res i, write_u16_loop σ fuel ws i0 = some (res, i) →
      i0 ≤ i ∧
      ∀ k, i0 ≤ k → k < i → ((σ k).ovr = true ∨ (σ k).modf = true) →
        i = k + 1 ∧ res = Except.error (if (σ k).ovr then Error.Overrun else Error.ModeFault) := by
  intro ws
  induction ws with
  | nil =>
    intro i0 res i h
    unfold write_u16_loop at h
    simp only [Option.some.injEq, Prod.mk.injEq] at h
    obtain ⟨hres, hi⟩ := h
    subst hi
    exact ⟨Nat.le_refl i0, fun k hk1 hk2 _ => absurd hk2 (by omega)⟩
  | cons w ws ih =>
    intro i0 res i h
    unfold write_u16_loop at h
    cases hb1 : nb_block check_send σ fuel i0 with
    | none =>
      rw [hb1] at h
      exact absurd h (by simp)
    | some p1 =>
      obtain ⟨r1, i1⟩ := p1
      rw [hb1] at h
      obtain ⟨hlt1, hall1⟩ := nb_block_fault check_send σ check_send_fault fuel i0 _ _ hb1
      cases r1 with
      | error e =>
        simp only [Option.some.injEq, Prod.mk.injEq] at h
        obtain ⟨hres, hi⟩ := h
        subst hi hres
        refine ⟨by omega, ?_⟩
        intro k hk1 hk2 hflt
        exact hall1 k hk1 hk2 hflt
      | ok =>
        dsimp only at h
        obtain ⟨hle2, hall2⟩ := ih i1 res i h
        refine ⟨by omega, ?_⟩
        intro k hk1 hk2 hflt
        by_cases hk : k < i1
        · obtain ⟨_, hcon⟩ := hall1 k hk1 hk hflt
          exact absurd hcon (by simp)
        · exact hall2 k (by omega) hk2 hflt

/-! ### The 8-bit transfer reports Overrun only from the final check -/

/-- One machine step preserves `ovrFromFinal`: a state that has returned
`Err(Overrun)` got there from the final status check with OVR set. -/
theorem ovrFromFinal_step (σ : Nat → SR) (rx : Nat → Nat) (s : St8)
    (h : ovrFromFinal σ s) : ovrFromFinal σ (step8 σ rx s) := by
  obtain ⟨ph, rp, wp, i, j, buf, sent⟩ := s
  cases ph with
  | mainCheck =>
    unfold ovrFromFinal step8
    dsimp only
    split_ifs <;> intro hdone <;> simp at hdone
  | fill =>
    unfold ovrFromFinal step8
    dsimp only
    split_ifs <;> intro hdone <;> simp at hdone
  | rd =>
    unfold ovrFromFinal step8
    dsimp only
    split_ifs <;> intro hdone <;> simp at hdone
  | drain =>
    unfold ovrFromFinal step8
    dsimp only
    split_ifs <;> intro hdone <;> simp at hdone
  | finalCheck =>
    unfold ovrFromFinal step8
    dsimp only
    split_ifs with hov
    · intro _
      simpa using hov
    · intro hdone
      simp at hdone
  | done r =>
    exact h

/-- Property `ovrFromFinal` holds after any number of machine steps. -/
theorem ovrFromFinal_iterate (σ : Nat → SR) (rx : Nat → Nat) (ws : List Nat) (n : Nat) :
    ovrFromFinal σ ((step8 σ rx)^[n] (init8 ws)) := by
  induction n with
  | zero =>
    intro hdone
    simp [init8] at hdone
  | succ n ih =>
    rw [Function.iterate_succ_apply']
    exact ovrFromFinal_step σ rx _ ih

/-! ### Claim C1 -/

/-- Claim C1 counterexample: in the 8-bit full-duplex transfer of one
element, the second status poll observes the overrun bit set
(`(σTransient 1).ovr = true` and that snapshot is consumed by the read
poll), yet the transfer runs to completion and returns `Ok`: a poll
observing Overrun does not make the 8-bit transfer return Overrun. -/
theorem transfer_u8_transient_overrun_ok :
    transfer_u8 σTransient rxz [7] 11 = some (Except.ok [0]) ∧ (σTransient 1).ovr = true :=
  ⟨rfl, rfl⟩

/-- Claim C1 (amended): every status poll of the 16-bit transfer, of the
16-bit write's send loop, and every poll consumed before an error return
of the 8-bit write, that observes Overrun (or Mode-Fault with Overrun
clear) aborts the operation immediately with that fault — the faulted
poll is the operation's last.  The 8-bit full-duplex transfer, by
contrast, does not abort on poll-observed faults: it returns Overrun only
when the overrun bit is set at its final post-completion status read. -/
theorem poll_fault_propagation :
    (∀ σ rx ws fuel res i j, transfer_u16 σ rx ws fuel = some (res, i, j) →
      ∀ k, k < i → ((σ k).ovr = true ∨ (σ k).modf = true) →
        i = k + 1 ∧ res = Except.error (if (σ k).ovr then Error.Overrun else Error.ModeFault)) ∧
    (∀ σ rx ws n, ((step8 σ rx)^[n] (init8 ws)).phase = Loc8.done (Except.error Error.Overrun) →
      (σ (((step8 σ rx)^[n] (init8 ws)).i - 1)).ovr = true) ∧
    (∀ σ ws fuel res i, write_u16_loop σ fuel ws 0 = some (res, i) →
      ∀ k, k < i → ((σ k).ovr = true ∨ (σ k).modf = true) →
        i = k + 1 ∧ res = Except.error (if (σ k).ovr then Error.Overrun else Error.ModeFault)) ∧
    (∀ σ ws fuel e i sent, write_u8 σ ws fuel = some (Except.error e, i, sent) →
      ∀ k, k < i → ((σ k).ovr = true ∨ (σ k).modf = true) →
        i = k + 1 ∧ (Except.error e : Except Error Unit) =
          Except.error (if (σ k).ovr then Error.Overrun else Error.ModeFault)) := by
  refine ⟨?_, ?_, ?_, ?_⟩
  · intro σ rx ws fuel res i j h k hk hflt
    exact (transfer_u16_go_fault σ rx fuel ws 0 0 [] res i j h).2 k (Nat.zero_le k) hk hflt
  · intro σ rx ws n h
    exact ovrFromFinal_iterate σ rx ws n h
  · intro σ ws fuel res i h k hk hflt
    exact (write_u16_loop_fault_aux σ fuel ws 0 res i h).2 k (Nat.zero_le k) hk hflt
  · intro σ ws fuel e i sent h k hk hflt
    unfold write_u8 at h
    cases hb1 : nb_block check_send σ fuel 0 with
    | none =>
      rw [hb1] at h
      exact absurd h (by simp)
    | some p1 =>
      obtain ⟨r1, i1⟩ := p1
      rw [hb1] at h
      cases r1 with
      | error e2 =>
        simp only [Option.some.injEq, Prod.mk.injEq, Except.error.injEq] at h
        obtain ⟨he, hi, hs⟩ := h
        subst he hi
        exact (nb_block_fault check_send σ check_send_fault fuel 0 _ _ hb1).2 k (Nat.zero_le k) hk hflt
      | ok =>
        dsimp only at h
        cases h2 : write_u8_loop σ fuel ws 0 i1 [] with
        | none =>
          rw [h2] at h
          exact absurd h (by simp)
        | some p2 =>
          obtain ⟨c2, i2, sent2⟩ := p2
          rw [h2] at h
          dsimp only at h
          cases h3 : nb_block check_send σ fuel i2 with
          | none =>
            rw [h3] at h
            exact absurd h (by simp)
          | some p3 =>
            obtain ⟨r3, i3⟩ := p3
            rw [h3] at h
            simp at h

/-- Witness for the amended C1: with the overrun bit set at the first
poll, the 16-bit transfer, the 8-bit transfer's machine, the 16-bit
write's send loop and the 8-bit write all abort at the first poll with
Overrun, through each conjunct of `poll_fault_propagation`. -/
theorem poll_fault_propagation_witness :
    (1 = 0 + 1 ∧ (Except.error Error.Overrun : Except Error (List Nat)) = Except.error Error.Overrun) ∧
    (σOvr 0).ovr = true ∧
    (1 = 0 + 1 ∧ (Except.error Error.Overrun : Except Error Unit) = Except.error Error.Overrun) ∧
    (1 = 0 + 1 ∧ (Except.error Error.Overrun : Except Error Unit) = Except.error Error.Overrun) :=
  ⟨poll_fault_propagation.1 σOvr rxz [5] 4 (Except.error Error.Overrun) 1 0 rfl 0 (by decide) (Or.inl rfl),
   poll_fault_propagation.2.1 σOvr rxz [] 3 rfl,
   poll_fault_propagation.2.2.1 σOvr [5] 4 (Except.error Error.Overrun) 1 rfl 0 (by decide) (Or.inl rfl),
   poll_fault_propagation.2.2.2 σOvr [5] 4 Error.Overrun 1 [] rfl 0 (by decide) (Or.inl rfl)⟩

/-! ### Claim C6: the drain loop is unreachable and a stalled bus hangs -/

/-- One machine step preserves the stalled-transfer invariant: under
`σStall` (send-ready once, then never ready, never faulted) the machine
keeps cycling through the main loop's three locations once the single
element has been sent. -/
theorem stallInv_step (s : St8) (h : stallInv s) : stallInv (step8 σStall rxz s) := by
  obtain ⟨ph, rp, wp, i, j, buf, sent⟩ := s
  obtain ⟨hph, hrp, hwp, hbuf, hi⟩ := h
  dsimp only at hph hrp hwp hbuf hi
  subst hrp hwp hbuf
  rcases hph with hph | hph | hph <;> subst hph
  · simp only [step8]
    rw [if_pos (by decide)]
    exact ⟨Or.inr (Or.inl rfl), rfl, rfl, rfl, hi⟩
  · simp only [step8]
    rw [if_neg (by decide)]
    exact ⟨Or.inr (Or.inr rfl), rfl, rfl, rfl, hi⟩
  · simp only [step8]
    have hσ : σStall i = srIdle := by
      have hne : ¬(i = 0) := by omega
      unfold σStall
      rw [if_neg hne]
    have hnot : ¬(check_read (σStall i) = NbResult.ok ∧ 0 < 1) := by
      intro hcc
      rw [hσ] at hcc
      exact absurd hcc.1 (by decide)
    rw [if_neg hnot]
    exact ⟨Or.inl rfl, rfl, rfl, rfl, Nat.succ_le_succ (Nat.zero_le i)⟩

/-- The stalled-transfer invariant is preserved by any number of steps. -/
theorem stallInv_iterate (n : Nat) (s : St8) (h : stallInv s) :
    stallInv ((step8 σStall rxz)^[n] s) := by
  induction n with
  | zero => exact h
  | succ n ih =>
    rw [Function.iterate_succ_apply']
    exact stallInv_step _ ih

/-- Claim C6 (what the code actually does at the claim's scenario): with a
status trace that is send-ready at the first poll and then never
receive-ready, never overrun and never faulted, the one-element 8-bit
transfer never returns, for any amount of fuel.  The outer loop's guard is
`read_pos < words.len()`, so the loop cannot be left before every element
has been read, the drain loop of src/spi.rs lines 530-538 is unreachable,
and the `IncompleteTransfer` return the claim describes never happens —
the engine spins forever instead. -/
theorem transfer_u8_stalled_never_returns (fuel : Nat) :
    transfer_u8 σStall rxz [0] fuel = none := by
  match fuel with
  | 0 => rfl
  | 1 => rfl
  | (n + 2) =>
    have h2 : stallInv ((step8 σStall rxz)^[2] (init8 [0])) :=
      ⟨Or.inr (Or.inl rfl), rfl, rfl, rfl, Nat.le_refl 1⟩
    have hiter := stallInv_iterate n _ h2
    unfold transfer_u8
    rw [Function.iterate_add_apply (step8 σStall rxz) n 2 (init8 [0])]
    rw [show (step8 σStall rxz)^[2] (init8 [0]) =
          step8 σStall rxz (step8 σStall rxz (init8 [0])) from rfl] at hiter
    rcases hiter.1 with hph | hph | hph <;> simp [resultOf, hph]

/-! ### Claim C10: the `Crc` error is never produced -/

/-- One machine step preserves `notCrc8`: the 8-bit transfer machine only
ever returns `Ok`, `Err(IncompleteTransfer)` or `Err(Overrun)`. -/
theorem notCrc8_step (σ : Nat → SR) (rx : Nat → Nat) (s : St8)
    (h : notCrc8 s) : notCrc8 (step8 σ rx s) := by
  obtain ⟨ph, rp, wp, i, j, buf, sent⟩ := s
  cases ph with
  | mainCheck =>
    unfold notCrc8 step8
    dsimp only
    split_ifs <;> intro r hr <;> simp_all
  | fill =>
    unfold notCrc8 step8
    dsimp only
    split_ifs <;> intro r hr <;> simp_all
  | rd =>
    unfold notCrc8 step8
    dsimp only
    split_ifs <;> intro r hr <;> simp_all
  | drain =>
    unfold notCrc8 step8
    dsimp only
    split_ifs <;> intro r hr <;> ((try simp at hr); (try subst hr); (try simp))
  | finalCheck =>
    unfold notCrc8 step8
    dsimp only
    split_ifs <;> intro r hr <;> ((try simp at hr); (try subst hr); (try simp))
  | done r0 =>
    exact h

/-- Property `notCrc8` holds after any number of machine steps. -/
theorem notCrc8_iterate (σ : Nat → SR) (rx : Nat → Nat) (ws : List Nat) (n : Nat) :
    notCrc8 ((step8 σ rx)^[n] (init8 ws)) := by
  induction n with
  | zero =>
    intro r hr
    simp [init8] at hr
  | succ n ih =>
    rw [Function.iterate_succ_apply']
    exact notCrc8_step σ rx _ ih

/-- The 16-bit transfer loop never returns the `Crc` error. -/
theorem transfer_u16_go_no_crc (σ : Nat → SR) (rx : Nat → Nat) (fuel : Nat) :
    ∀ ws i0 j0 acc res i j, transfer_u16_go σ rx fuel ws i0 j0 acc = some (res, i, j) →
      res ≠ Except.error Error.Crc := by
  intro ws
  induction ws with
  | nil =>
    intro i0 j0 acc res i j h
    unfold transfer_u16_go at h
    simp only [Option.some.injEq, Prod.mk.injEq] at h
    obtain ⟨hres, _, _⟩ := h
    subst hres
    simp
  | cons w ws ih =>
    intro i0 j0 acc res i j h
    unfold transfer_u16_go at h
    cases hb1 : nb_block check_send σ fuel i0 with
    | none =>
      rw [hb1] at h
      exact absurd h (by simp)
    | some p1 =>
      obtain ⟨r1, i1⟩ := p1
      rw [hb1] at h
      cases r1 with
      | error e =>
        simp only [Option.some.injEq, Prod.mk.injEq] at h
        obtain ⟨hres, _, _⟩ := h
        subst hres
        rcases nb_block_err check_send σ check_send_err fuel i0 e i1 hb1 with rfl | rfl <;> simp
      | ok =>
        dsimp only at h
        cases hb2 : nb_block check_read σ fuel i1 with
        | none =>
          rw [hb2] at h
          exact absurd h (by simp)
        | some p2 =>
          obtain ⟨r2, i2⟩ := p2
          rw [hb2] at h
          cases r2 with
          | error e =>
            simp only [Option.some.injEq, Prod.mk.injEq] at h
            obtain ⟨hres, _, _⟩ := h
            subst hres
            rcases nb_block_err check_read σ check_read_err fuel i1 e i2 hb2 with rfl | rfl <;> simp
          | ok =>
            dsimp only at h
            exact ih i2 (j0 + 1) (rx j0 :: acc) res i j h

/-- The 16-bit write's send loop never returns the `Crc` error. -/
theorem write_u16_loop_no_crc (σ : Nat → SR) (fuel : Nat) :
    ∀ ws i0 res i, write_u16_loop σ fuel ws i0 = some (res, i) →
      res ≠ Except.error Error.Crc := by
  intro ws
  induction ws with
  | nil =>
    intro i0 res i h
    unfold write_u16_loop at h
    simp only [Option.some.injEq, Prod.mk.injEq] at h
    obtain ⟨hres, _⟩ := h
    subst hres
    simp
  | cons w ws ih =>
    intro i0 res i h
    unfold write_u16_loop at h
    cases hb1 : nb_block check_send σ fuel i0 with
    | none =>
      rw [hb1] at h
      exact absurd h (by simp)
    | some p1 =>
      obtain ⟨r1, i1⟩ := p1
      rw [hb1] at h
      cases r1 with
      | error e =>
        simp only [Option.some.injEq, Prod.mk.injEq] at h
        obtain ⟨hres, _⟩ := h
        subst hres
        rcases nb_block_err check_send σ check_send_err fuel i0 e i1 hb1 with rfl | rfl <;> simp
      | ok =>
        dsimp only at h
        exact ih i1 res i h

/-- Claim C10: no public operation — full-duplex transfer or send-only
write, at either width — ever returns the `Crc` variant, for any buffer,
any status-register trace and any fuel: the only errors produced are
Overrun, ModeFault and IncompleteTransfer. -/
theorem no_crc_error :
    (∀ σ rx ws fuel res, transfer_u8 σ rx ws fuel = some res → res ≠ Except.error Error.Crc) ∧
    (∀ σ rx ws fuel res i j, transfer_u16 σ rx ws fuel = some (res, i, j) →
      res ≠ Except.error Error.Crc) ∧
    (∀ σ ws fuel res i sent, write_u8 σ ws fuel = some (res, i, sent) →
      res ≠ Except.error Error.Crc) ∧
    (∀ σ ws fuel res i, write_u16 σ ws fuel = some (res, i) → res ≠ Except.error Error.Crc) := by
  refine ⟨?_, ?_, ?_, ?_⟩
  · intro σ rx ws fuel res h
    have hn := notCrc8_iterate σ rx ws fuel
    unfold transfer_u8 resultOf at h
    cases hp : ((step8 σ rx)^[fuel] (init8 ws)).phase with
    | mainCheck => rw [hp] at h; simp at h
    | fill => rw [hp] at h; simp at h
    | rd => rw [hp] at h; simp at h
    | drain => rw [hp] at h; simp at h
    | finalCheck => rw [hp] at h; simp at h
    | done r =>
      rw [hp] at h
      simp only [Option.some.injEq] at h
      subst h
      exact hn r hp
  · intro σ rx ws fuel res i j h
    exact transfer_u16_go_no_crc σ rx fuel ws 0 0 [] res i j h
  · intro σ ws fuel res i sent h
    unfold write_u8 at h
    cases hb1 : nb_block check_send σ fuel 0 with
    | none =>
      rw [hb1] at h
      exact absurd h (by simp)
    | some p1 =>
      obtain ⟨r1, i1⟩ := p1
      rw [hb1] at h
      cases r1 with
      | error e =>
        simp only [Option.some.injEq, Prod.mk.injEq] at h
        obtain ⟨hres, _, _⟩ := h
        subst hres
        rcases nb_block_err check_send σ check_send_err fuel 0 e i1 hb1 with rfl | rfl <;> simp
      | ok =>
        dsimp only at h
        cases h2 : write_u8_loop σ fuel ws 0 i1 [] with
        | none =>
          rw [h2] at h
          exact absurd h (by simp)
        | some p2 =>
          obtain ⟨c2, i2, sent2⟩ := p2
          rw [h2] at h
          dsimp only at h
          cases h3 : nb_block check_send σ fuel i2 with
          | none =>
            rw [h3] at h
            exact absurd h (by simp)
          | some p3 =>
            obtain ⟨r3, i3⟩ := p3
            rw [h3] at h
            simp only [Option.some.injEq, Prod.mk.injEq] at h
            obtain ⟨hres, _, _⟩ := h
            subst hres
            simp
  · intro σ ws fuel res i h
    unfold write_u16 at h
    cases h1 : write_u16_loop σ fuel ws 0 with
    | none =>
      rw [h1] at h
      exact absurd h (by simp)
    | some p1 =>
      obtain ⟨r1, i1⟩ := p1
      rw [h1] at h
      cases r1 with
      | error e =>
        simp only [Option.some.injEq, Prod.mk.injEq] at h
        obtain ⟨hres, _⟩ := h
        subst hres
        exact write_u16_loop_no_crc σ fuel ws 0 _ i1 h1
      | ok =>
        dsimp only at h
        cases h3 : nb_block check_send σ fuel i1 with
        | none =>
          rw [h3] at h
          exact absurd h (by simp)
        | some p3 =>
          obtain ⟨r3, i3⟩ := p3
          rw [h3] at h
          simp only [Option.some.injEq, Prod.mk.injEq] at h
          obtain ⟨hres, _⟩ := h
          subst hres
          simp

/-- Witness for C10: each of the four operations, run on a benign always-
ready trace, returns a non-`Crc` result, through the respective conjunct of
`no_crc_error`. -/
theorem no_crc_error_witness :
    (Except.ok ([] : List Nat) ≠ Except.error Error.Crc) ∧
    (Except.ok ([0] : List Nat) ≠ Except.error Error.Crc) ∧
    ((Except.ok () : Except Error Unit) ≠ Except.error Error.Crc) ∧
    ((Except.ok () : Except Error Unit) ≠ Except.error Error.Crc) :=
  ⟨no_crc_error.1 σReady rxz [] 4 (Except.ok []) rfl,
   no_crc_error.2.1 σReady rxz [3] 4 (Except.ok [0]) 2 1 rfl,
   no_crc_error.2.2.1 σReady [2] 4 (Except.ok ()) 3 [2] rfl,
   no_crc_error.2.2.2 σReady [2] 4 (Except.ok ()) 2 rfl⟩

/-! ### Claim C9: the empty send-only write -/

/-- Claim C9 counterexample: the empty-buffer 8-bit write on an always-
ready trace performs two status-register reads in total, while its initial
send-ready block consumes exactly one — so the operation does poll the
status register beyond the initial send-ready block (the final,
error-ignored send-ready block), contrary to the claim. -/
theorem write_u8_empty_polls_beyond_initial :
    write_u8 σReady [] 3 = some (Except.ok (), 2, []) ∧
    nb_block check_send σReady 3 0 = some (Except.ok (), 1) :=
  ⟨rfl, rfl⟩

/-- Claim C9 (amended): the empty-buffer 8-bit write returns Ok whenever
the initial and the final send-ready polls are each immediately ready and
fault-free; it sends nothing and performs no FIFO-occupancy reads, and its
status polling is exactly two reads — one for the initial send-ready block
and one more for the final (error-ignored) send-ready block. -/
theorem write_u8_empty (σ : Nat → SR) (fuel : Nat)
    (h0 : check_send (σ 0) = NbResult.ok) (h1 : check_send (σ 1) = NbResult.ok) :
    write_u8 σ [] (fuel + 1) = some (Except.ok (), 2, []) := by
  unfold write_u8
  have hb0 : nb_block check_send σ (fuel + 1) 0 = some (Except.ok (), 1) := by
    unfold nb_block
    rw [h0]
  rw [hb0]
  dsimp only
  have hloop : write_u8_loop σ (fuel + 1) [] 0 1 [] = some (0, 1, []) := rfl
  rw [hloop]
  dsimp only
  have hb1 : nb_block check_send σ (fuel + 1) 1 = some (Except.ok (), 2) := by
    unfold nb_block
    rw [h1]
  rw [hb1]

/-- Witness for the amended C9, at the always-ready trace. -/
theorem write_u8_empty_witness : write_u8 σReady [] 3 = some (Except.ok (), 2, []) :=
  write_u8_empty σReady 2 rfl rfl

end Py32Spi
